import Mathlib

/-!
Verification of the typing-session engine of the typeracer CLI
(`src/typer.py`).  Strings are embedded as lists of Unicode code points
(`List Nat`), wall-clock timestamps as rationals, and the Unicode data
consulted by the `unicodedata` library calls is modelled on a finite
table of precomposed Latin letters (identity elsewhere).
-/

namespace Typer

/-! ## Text normalization (`TyperacerGame.normalize_text` / `normalize_accents`) -/

/-- Translation of one code point by `quote_normalization_table`
(`str.maketrans` entries in `TyperacerGame.__init__`): the curly double
quotes U+201C/U+201D become `"` (0x22) and the curly single quotes
U+2018/U+2019 become an apostrophe (0x27); every other code point is
unchanged. -/
def normalize_text_char (c : Nat) : Nat :=
  if c = 0x201C then 0x22
  else if c = 0x201D then 0x22
  else if c = 0x2018 then 0x27
  else if c = 0x2019 then 0x27
  else c

/-- Source method `normalize_text`: `str.translate` applies the table to
every character of the string. -/
def normalize_text (s : List Nat) : List Nat := s.map normalize_text_char

/-- Models the canonical decomposition of one code point as performed by
`unicodedata.normalize` with form NFD, over a finite table of precomposed
Latin letters (the accented characters named by the source's docstring and
docs, e.g. é, ö); every code point outside the table decomposes to itself.
Each image is a base letter followed by one combining mark, already in
canonical order, and its elements decompose to themselves — matching the
Unicode guarantee that NFD output is fully decomposed. -/
def nfd_char (c : Nat) : List Nat :=
  if c = 0xE9 then [0x65, 0x301]
  else if c = 0xC9 then [0x45, 0x301]
  else if c = 0xE8 then [0x65, 0x300]
  else if c = 0xF6 then [0x6F, 0x308]
  else if c = 0xE1 then [0x61, 0x301]
  else if c = 0xFC then [0x75, 0x308]
  else if c = 0xF1 then [0x6E, 0x303]
  else if c = 0xE7 then [0x63, 0x327]
  else [c]

/-- Models `unicodedata.category c = Mn` (nonspacing combining mark) for
the combining marks appearing in the modelled decompositions. -/
def isMn (c : Nat) : Bool :=
  c = 0x300 || c = 0x301 || c = 0x303 || c = 0x308 || c = 0x327

/-- Models `unicodedata.normalize` of form NFD on a whole string:
concatenation of the per-code-point decompositions (the modelled
decompositions are single base+mark pairs, so no canonical reordering
across code points arises). -/
def nfd (s : List Nat) : List Nat := s.flatMap nfd_char

/-- Source method `normalize_accents`: NFD-decompose the string, then keep
only the characters whose Unicode category is not Mn. -/
def normalize_accents (s : List Nat) : List Nat :=
  (nfd s).filter (fun c => !(isMn c))

/-! ## Reward configuration and tier classification -/

namespace RewardConfig

/-- WPM needed for the pristine tier. -/
def PRISTINE_WPM : ℚ := 90

/-- WPM needed for the exceptional tier. -/
def EXCEPTIONAL_WPM : ℚ := 80

/-- WPM needed for the adequate tier. -/
def ADEQUATE_WPM : ℚ := 70

/-- Maximum errors allowed for the pristine tier. -/
def PRISTINE_MAX_ERRORS : Nat := 0

end RewardConfig

/-- Source method `calculate_tier`: ordered cascade checking pristine
first, then exceptional, then adequate, with disaster as the default. -/
def calculate_tier (wpm : ℚ) (errors : Nat) : String :=
  if RewardConfig.PRISTINE_WPM ≤ wpm ∧ errors ≤ RewardConfig.PRISTINE_MAX_ERRORS then
    "pristine"
  else if RewardConfig.EXCEPTIONAL_WPM ≤ wpm then "exceptional"
  else if RewardConfig.ADEQUATE_WPM ≤ wpm then "adequate"
  else "disaster"

/-! ## Rounding

Python's built-in `round` rounds half to even (banker's rounding); with
`ndigits` it rounds the value scaled by `10 ^ ndigits`. -/

/-- Rounding of a rational to the nearest integer, ties to the even
neighbour, as Python's `round` does on an exactly-representable value. -/
def roundHalfEven (q : ℚ) : ℤ :=
  if q - ⌊q⌋ = 1 / 2 then (if ⌊q⌋ % 2 = 0 then ⌊q⌋ else ⌊q⌋ + 1)
  else round q

/-- Models Python's `round(q, n)` on rationals. -/
def pyRound (n : Nat) (q : ℚ) : ℚ :=
  (roundHalfEven (q * 10 ^ n) : ℚ) / 10 ^ n

/-! ## Game state (`TyperacerGame` fields used by the session engine) -/

/-- State of one typing round: the normalized target quote, the typed
buffer, the two optional timestamps and the running error count. -/
structure GameState where
  quote : List Nat
  typed : List Nat
  start_time : Option ℚ
  end_time : Option ℚ
  errors : Nat
deriving DecidableEq

/-- Python truthiness test `not self.start_time` for an optional float:
true when the field is `None` and also when it holds exactly `0.0`. -/
def py_falsy (x : Option ℚ) : Bool :=
  match x with
  | none => true
  | some v => v = 0

/-- Source method `calculate_wpm`, with the wall-clock read `time.time()`
passed in as `now`.  Returns `0` when `not self.start_time` (Python
truthiness) or the typed buffer is empty; returns `0` when the elapsed
time is exactly `0`; otherwise `(typedLength / 5) / minutes` rounded to
one decimal place.  After the guard, `start_time` is `some st` with
`st ≠ 0`, so `getD` reads that timestamp. -/
def calculate_wpm (now : ℚ) (g : GameState) : ℚ :=
  if py_falsy g.start_time ∨ g.typed.length = 0 then 0
  else
    let st := g.start_time.getD 0
    let elapsed_time := now - st
    if elapsed_time = 0 then 0
    else pyRound 1 (((g.typed.length : ℚ) / 5) / (elapsed_time / 60))

/-- Source method `is_complete`: false when lengths differ, otherwise
character-by-character comparison under `normalize_accents` of each
single-character string. -/
def is_complete (g : GameState) : Bool :=
  if g.typed.length ≠ g.quote.length then false
  else
    (List.range g.quote.length).all fun i =>
      normalize_accents [g.typed.getD i 0] = normalize_accents [g.quote.getD i 0]

/-! ## Key handling (the input dispatch of `main_curses`, lines 544-579) -/

/-- One printable keypress (`main_curses` lines 562-577): start the timer
on the first character, append `normalize_text(chr(ch))` to the typed
buffer, and increment `errors` when the new character, at an index that
exists in the quote, differs from the quote character there under
`normalize_accents`. -/
def feed_char (now : ℚ) (ch : Nat) (g : GameState) : GameState :=
  let start' := if g.start_time = none then some now else g.start_time
  let typed' := g.typed ++ [normalize_text_char ch]
  let current_pos := typed'.length - 1
  let errors' :=
    if current_pos < g.quote.length then
      if normalize_accents [typed'.getD current_pos 0] ≠
          normalize_accents [g.quote.getD current_pos 0] then
        g.errors + 1
      else g.errors
    else g.errors
  { g with start_time := start', typed := typed', errors := errors' }

/-- Dispatch of one key event `ch` inside the round loop of `main_curses`:
`curses.KEY_BACKSPACE` (263), 127 and 8 delete the last typed character
when the buffer is non-empty; 3 (Ctrl+C) raises `KeyboardInterrupt`,
leaving the game state unchanged; 24 (Ctrl+X) ends the round, first
setting `start_time` to the current time if it is unset; printable ASCII
32..126 is fed to the buffer; every other key is ignored. -/
def handle_key (now : ℚ) (ch : Nat) (g : GameState) : GameState :=
  if ch = 263 ∨ ch = 127 ∨ ch = 8 then
    if 0 < g.typed.length then { g with typed := g.typed.dropLast } else g
  else if ch = 3 then g
  else if ch = 24 then
    if g.start_time = none then { g with start_time := some now } else g
  else if 32 ≤ ch ∧ ch ≤ 126 then feed_char now ch g
  else g

/-- A whole sequence of key events, each paired with the wall-clock time
at which it arrives, folded through `handle_key`. -/
def run_inputs (inputs : List (ℚ × Nat)) (g : GameState) : GameState :=
  inputs.foldl (fun s p => handle_key p.1 p.2 s) g

/-- End of a round (`main_curses` lines 588-596): `end_time` is set to the
wall-clock read `t_end`; when `start_time` is `None` the final wpm and
elapsed time are both `0.0`; otherwise the final wpm is
`game.calculate_wpm()` — which performs a fresh wall-clock read `t_now`
— and the elapsed time is `end_time - start_time`.  Returns the updated
state, the final wpm, and the elapsed time. -/
def end_of_round (t_end t_now : ℚ) (g : GameState) : GameState × ℚ × ℚ :=
  let g' := { g with end_time := some t_end }
  match g'.start_time with
  | none => (g', 0, 0)
  | some st => (g', calculate_wpm t_now g', t_end - st)

/-! ## Stats store (`save_stats` / `get_historical_stats`) -/

/-- One data row of `typing_stats.csv` as seen by `get_historical_stats`.
Only the columns the reader consults are modelled; `wpm_field` holds the
result of `float(row[..])` on the wpm column — `none` when that call
raises (malformed text or missing key). -/
structure CsvRow where
  wpm_field : Option ℚ
  accuracy : ℚ
  errors : Nat
  duration : ℚ
  tier : String
deriving DecidableEq

/-- Source method `save_stats`: appends one row holding the wpm, the fixed
accuracy 100.0, the error count, the elapsed time rounded to two decimal
places, and the tier.  Writing a float and parsing it back with `float`
is exact, so the stored wpm field parses to the written value. -/
def save_stats (errors : Nat) (wpm elapsed_time : ℚ) (tier : String)
    (log : List CsvRow) : List CsvRow :=
  log ++ [{ wpm_field := some wpm, accuracy := 100, errors := errors,
            duration := pyRound 2 elapsed_time, tier := tier }]

/-- The comprehension `[float(row[..]) for row in rows]`: the parsed
wpm values when every row parses, `none` when some `float` call raises
(the exception is then caught by the bare `except`). -/
def parse_wpms : List CsvRow → Option (List ℚ)
  | [] => some []
  | r :: rs =>
    match r.wpm_field, parse_wpms rs with
    | some w, some ws => some (w :: ws)
    | _, _ => none

/-- Python `max` over a list of rationals; only reached on a non-empty
list in `get_historical_stats` (Python's `max([])` would raise). -/
def listMax : List ℚ → ℚ
  | [] => 0
  | h :: t => t.foldl max h

/-- One step of building the tier-count dictionary: increment the count of
`t` in place, or append a new entry (Python dicts iterate in insertion
order). -/
def bump_tier (acc : List (String × Nat)) (t : String) : List (String × Nat) :=
  if (acc.lookup t).isSome then
    acc.map fun p => if p.1 = t then (p.1, p.2 + 1) else p
  else acc ++ [(t, 1)]

/-- The tier-achievement counts: `tier_counts[tier] += 1` over the rows in
order, reading each row's tier column. -/
def tier_counts_of (rows : List CsvRow) : List (String × Nat) :=
  rows.foldl (fun acc r => bump_tier acc r.tier) []

/-- The aggregate record returned by `get_historical_stats`. -/
structure HistoricalStats where
  total_rounds : Nat
  avg_wpm : ℚ
  recent_avg_wpm : ℚ
  best_wpm : ℚ
  tier_counts : List (String × Nat)
deriving DecidableEq

/-- Source method `get_historical_stats`: `none` when the stats file does
not exist (`file = none`), when it has zero data rows, or when reading it
raises (modelled: some wpm field fails to parse as a float — the bare
`except` turns any such error into `None`).  Otherwise the averages, the
best and the tier counts, where `recent_wpms` is `wpms[-5:]` when more
than five rows exist and the whole list otherwise. -/
def get_historical_stats (file : Option (List CsvRow)) : Option HistoricalStats :=
  match file with
  | none => none
  | some rows =>
    if rows.length = 0 then none
    else
      match parse_wpms rows with
      | none => none
      | some wpms =>
        let recent_wpms := if wpms.length > 5 then wpms.drop (wpms.length - 5) else wpms
        some { total_rounds := rows.length
               avg_wpm := pyRound 1 (wpms.sum / (wpms.length : ℚ))
               recent_avg_wpm := pyRound 1 (recent_wpms.sum / (recent_wpms.length : ℚ))
               best_wpm := pyRound 1 (listMax wpms)
               tier_counts := tier_counts_of rows }

/-! ## Helper lemmas about normalization -/

/-- Applying the quote-normalization table to a code point outside it is
the identity. -/
lemma normalize_text_char_of_not_key (c : Nat) (h1 : c ≠ 0x201C) (h2 : c ≠ 0x201D)
    (h3 : c ≠ 0x2018) (h4 : c ≠ 0x2019) : normalize_text_char c = c := by
  unfold normalize_text_char
  rw [if_neg h1, if_neg h2, if_neg h3, if_neg h4]

/-- The quote-normalization table is idempotent on every code point: its
images (0x22 and 0x27) are not among its keys. -/
lemma normalize_text_char_idem (c : Nat) :
    normalize_text_char (normalize_text_char c) = normalize_text_char c := by
  by_cases h1 : c = 0x201C
  · subst h1; decide
  by_cases h2 : c = 0x201D
  · subst h2; decide
  by_cases h3 : c = 0x2018
  · subst h3; decide
  by_cases h4 : c = 0x2019
  · subst h4; decide
  rw [normalize_text_char_of_not_key c h1 h2 h3 h4,
    normalize_text_char_of_not_key c h1 h2 h3 h4]

/-- A code point outside the decomposition table decomposes to itself. -/
lemma nfd_char_of_not_key (c : Nat) (h1 : c ≠ 0xE9) (h2 : c ≠ 0xC9) (h3 : c ≠ 0xE8)
    (h4 : c ≠ 0xF6) (h5 : c ≠ 0xE1) (h6 : c ≠ 0xFC) (h7 : c ≠ 0xF1) (h8 : c ≠ 0xE7) :
    nfd_char c = [c] := by
  unfold nfd_char
  rw [if_neg h1, if_neg h2, if_neg h3, if_neg h4, if_neg h5, if_neg h6, if_neg h7,
    if_neg h8]

/-- Every code point in the image of a decomposition decomposes to itself:
the modelled NFD output is fully decomposed. -/
lemma nfd_char_flat (c d : Nat) (hd : d ∈ nfd_char c) : nfd_char d = [d] := by
  by_cases h1 : c = 0xE9
  · subst h1
    rw [show nfd_char 0xE9 = [0x65, 0x301] from by decide] at hd
    rcases hd with _ | ⟨_, _ | ⟨_, ⟨⟩⟩⟩ <;> decide
  by_cases h2 : c = 0xC9
  · subst h2
    rw [show nfd_char 0xC9 = [0x45, 0x301] from by decide] at hd
    rcases hd with _ | ⟨_, _ | ⟨_, ⟨⟩⟩⟩ <;> decide
  by_cases h3 : c = 0xE8
  · subst h3
    rw [show nfd_char 0xE8 = [0x65, 0x300] from by decide] at hd
    rcases hd with _ | ⟨_, _ | ⟨_, ⟨⟩⟩⟩ <;> decide
  by_cases h4 : c = 0xF6
  · subst h4
    rw [show nfd_char 0xF6 = [0x6F, 0x308] from by decide] at hd
    rcases hd with _ | ⟨_, _ | ⟨_, ⟨⟩⟩⟩ <;> decide
  by_cases h5 : c = 0xE1
  · subst h5
    rw [show nfd_char 0xE1 = [0x61, 0x301] from by decide] at hd
    rcases hd with _ | ⟨_, _ | ⟨_, ⟨⟩⟩⟩ <;> decide
  by_cases h6 : c = 0xFC
  · subst h6
    rw [show nfd_char 0xFC = [0x75, 0x308] from by decide] at hd
    rcases hd with _ | ⟨_, _ | ⟨_, ⟨⟩⟩⟩ <;> decide
  by_cases h7 : c = 0xF1
  · subst h7
    rw [show nfd_char 0xF1 = [0x6E, 0x303] from by decide] at hd
    rcases hd with _ | ⟨_, _ | ⟨_, ⟨⟩⟩⟩ <;> decide
  by_cases h8 : c = 0xE7
  · subst h8
    rw [show nfd_char 0xE7 = [0x63, 0x327] from by decide] at hd
    rcases hd with _ | ⟨_, _ | ⟨_, ⟨⟩⟩⟩ <;> decide
  rw [nfd_char_of_not_key c h1 h2 h3 h4 h5 h6 h7 h8] at hd
  rcases hd with _ | ⟨_, ⟨⟩⟩
  exact nfd_char_of_not_key c h1 h2 h3 h4 h5 h6 h7 h8

/-- NFD is the identity on a string all of whose code points decompose to
themselves. -/
lemma nfd_of_flat (l : List Nat) (h : ∀ c ∈ l, nfd_char c = [c]) : nfd l = l := by
  induction l with
  | nil => rfl
  | cons a t ih =>
    rw [nfd, List.flatMap_cons, h a (List.mem_cons_self a t)]
    have ht : t.flatMap nfd_char = t := ih fun c hc => h c (List.mem_cons_of_mem a hc)
    rw [ht]
    rfl

/-- Every code point of an NFD output decomposes to itself. -/
lemma mem_nfd_flat (s : List Nat) (d : Nat) (hd : d ∈ nfd s) : nfd_char d = [d] := by
  rw [nfd, List.mem_flatMap] at hd
  obtain ⟨c, _, hdc⟩ := hd
  exact nfd_char_flat c d hdc

/-! ## Claim theorems -/

/-- C8: both normalizations are idempotent — applying the
quote-punctuation canonicalization to an already-canonicalized string
returns it unchanged, and applying diacritic folding to an already-folded
string returns it unchanged. -/
theorem c8_normalization_idempotent : ∀ s : List Nat,
    normalize_text (normalize_text s) = normalize_text s ∧
    normalize_accents (normalize_accents s) = normalize_accents s := by
  intro s
  constructor
  · rw [normalize_text, normalize_text, List.map_map]
    exact List.map_congr_left fun c _ => normalize_text_char_idem c
  · unfold normalize_accents
    have hflat : ∀ d ∈ (nfd s).filter (fun c => !(isMn c)), nfd_char d = [d] :=
      fun d hd => mem_nfd_flat s d (List.mem_of_mem_filter hd)
    rw [nfd_of_flat _ hflat, List.filter_filter]
    simp

/-- C1: is_complete is true iff the typed buffer length equals the quote
length and every corresponding pair of characters agrees after diacritic
folding; in particular a length mismatch makes it false. -/
theorem c1_is_complete_iff : ∀ g : GameState,
    (is_complete g = true ↔
      (g.typed.length = g.quote.length ∧ ∀ i, i < g.quote.length →
        normalize_accents [g.typed.getD i 0] = normalize_accents [g.quote.getD i 0])) ∧
    (g.typed.length ≠ g.quote.length → is_complete g = false) := by
  intro g
  unfold is_complete
  split_ifs with hlen
  · constructor
    · simp [hlen]
    · intro _; rfl
  · push_neg at hlen
    constructor
    · rw [List.all_eq_true]
      constructor
      · intro hall
        refine ⟨hlen, fun i hi => ?_⟩
        have := hall i (List.mem_range.mpr hi)
        simpa using this
      · intro ⟨_, hchar⟩ i hi
        simpa using hchar i (List.mem_range.mp hi)
    · intro hne; exact absurd hlen hne

/-- C1 witness: a session whose typed length (1) differs from the quote
length (2) is not complete. -/
theorem c1_is_complete_iff_witness :
    is_complete { quote := [104, 105], typed := [104], start_time := none,
                  end_time := none, errors := 0 } = false :=
  (c1_is_complete_iff _).2 (by decide)

/-- C2: the tier classifier is an ordered cascade — pristine iff wpm at
least 90 with at most 0 errors, else exceptional iff wpm at least 80,
else adequate iff wpm at least 70, else disaster — and takes the claimed
values at (90,0), (90,1), (75,5) and (10,0). -/
theorem c2_calculate_tier_cascade : ∀ (wpm : ℚ) (errors : Nat),
    (calculate_tier wpm errors = "pristine" ↔ (90 ≤ wpm ∧ errors ≤ 0)) ∧
    (calculate_tier wpm errors = "exceptional" ↔
      (¬(90 ≤ wpm ∧ errors ≤ 0) ∧ 80 ≤ wpm)) ∧
    (calculate_tier wpm errors = "adequate" ↔
      (¬(90 ≤ wpm ∧ errors ≤ 0) ∧ ¬(80 ≤ wpm) ∧ 70 ≤ wpm)) ∧
    (calculate_tier wpm errors = "disaster" ↔
      (¬(90 ≤ wpm ∧ errors ≤ 0) ∧ ¬(80 ≤ wpm) ∧ ¬(70 ≤ wpm))) ∧
    calculate_tier 90 0 = "pristine" ∧
    calculate_tier 90 1 = "exceptional" ∧
    calculate_tier 75 5 = "adequate" ∧
    calculate_tier 10 0 = "disaster" := by
  intro wpm errors
  refine ⟨?_, ?_, ?_, ?_, by decide, by decide, by decide, by decide⟩ <;>
    · unfold calculate_tier RewardConfig.PRISTINE_WPM RewardConfig.EXCEPTIONAL_WPM
        RewardConfig.ADEQUATE_WPM RewardConfig.PRISTINE_MAX_ERRORS
      split_ifs <;> simp_all

/-- Projection of a fed character: the typed buffer grows by exactly the
translated character. -/
lemma feed_char_typed (now : ℚ) (ch : Nat) (g : GameState) :
    (feed_char now ch g).typed = g.typed ++ [normalize_text_char ch] := rfl

/-- Feeding a character at an index beyond the quote leaves the error
count unchanged. -/
lemma feed_char_errors_of_overflow (now : ℚ) (ch : Nat) (g : GameState)
    (h : g.quote.length ≤ g.typed.length) :
    (feed_char now ch g).errors = g.errors := by
  unfold feed_char
  have hpos : ¬((g.typed ++ [normalize_text_char ch]).length - 1 < g.quote.length) := by
    simp only [List.length_append, List.length_singleton]
    omega
  simp only [hpos, if_false]

/-- Feeding a character never decreases the error count. -/
lemma feed_char_errors_ge (now : ℚ) (ch : Nat) (g : GameState) :
    g.errors ≤ (feed_char now ch g).errors := by
  simp only [feed_char]
  split_ifs <;> omega

/-- No single key event ever decreases the error count. -/
lemma handle_key_errors_mono (now : ℚ) (ch : Nat) (g : GameState) :
    g.errors ≤ (handle_key now ch g).errors := by
  unfold handle_key
  split_ifs <;> first | exact le_refl _ | exact feed_char_errors_ge now ch g

/-- C3: the error count is monotonically non-decreasing over every
sequence of key events, and a backspace on a non-empty buffer removes
exactly the last typed character while leaving the error count
unchanged. -/
theorem c3_errors_monotone_backspace :
    (∀ (inputs : List (ℚ × Nat)) (g : GameState),
      g.errors ≤ (run_inputs inputs g).errors) ∧
    (∀ (now : ℚ) (ch : Nat) (g : GameState), (ch = 263 ∨ ch = 127 ∨ ch = 8) →
      g.typed ≠ [] →
      (handle_key now ch g).typed = g.typed.dropLast ∧
      (handle_key now ch g).errors = g.errors) := by
  constructor
  · intro inputs
    induction inputs with
    | nil => intro g; exact le_refl _
    | cons p rest ih =>
      intro g
      have h1 := handle_key_errors_mono p.1 p.2 g
      have h2 := ih (handle_key p.1 p.2 g)
      exact le_trans h1 h2
  · intro now ch g hch htyped
    unfold handle_key
    rw [if_pos hch, if_pos (List.length_pos.mpr htyped)]
    exact ⟨rfl, rfl⟩

/-- C3 witness: from a state with two typed characters and two recorded
errors, a printable key keeps the error count at least 2, and a backspace
(key 8) drops the last character and keeps the count at exactly 2. -/
theorem c3_errors_monotone_backspace_witness :
    2 ≤ (run_inputs [(0, 97)] ⟨[104], [104, 105], some 1, none, 2⟩).errors ∧
    (handle_key 0 8 ⟨[104], [104, 105], some 1, none, 2⟩).typed = [104] ∧
    (handle_key 0 8 ⟨[104], [104, 105], some 1, none, 2⟩).errors = 2 :=
  ⟨c3_errors_monotone_backspace.1 [(0, 97)] ⟨[104], [104, 105], some 1, none, 2⟩,
   c3_errors_monotone_backspace.2 0 8 ⟨[104], [104, 105], some 1, none, 2⟩
     (Or.inr (Or.inr rfl)) (by decide)⟩

/-- C9: a printable character fed when the typed buffer already covers
the whole quote is appended to the buffer but never counted as an
error. -/
theorem c9_overflow_no_error : ∀ (now : ℚ) (ch : Nat) (g : GameState),
    32 ≤ ch → ch ≤ 126 → g.quote.length ≤ g.typed.length →
    (handle_key now ch g).typed = g.typed ++ [normalize_text_char ch] ∧
    (handle_key now ch g).errors = g.errors := by
  intro now ch g h32 h126 hlen
  have hb : ¬(ch = 263 ∨ ch = 127 ∨ ch = 8) := by omega
  have h3 : ch ≠ 3 := by omega
  have h24 : ch ≠ 24 := by omega
  unfold handle_key
  rw [if_neg hb, if_neg h3, if_neg h24, if_pos ⟨h32, h126⟩]
  exact ⟨feed_char_typed now ch g, feed_char_errors_of_overflow now ch g hlen⟩

/-- C9 witness: with the quote already fully covered, feeding `x` appends
it and the error count stays 1. -/
theorem c9_overflow_no_error_witness :
    (handle_key 9 120 ⟨[104, 105], [104, 105], some 1, none, 1⟩).typed =
      [104, 105, 120] ∧
    (handle_key 9 120 ⟨[104, 105], [104, 105], some 1, none, 1⟩).errors = 1 :=
  c9_overflow_no_error 9 120 _ (by decide) (by decide) (by decide)

/-- C5 counterexample: from a fresh session (no printable character fed,
`start_time` unset), the Ctrl+X abort shortcut (key 24) at time 5 sets
`start_time` to 5, so it does not remain unset as the claim states. -/
theorem c5_cex :
    (handle_key 5 24 ⟨[104, 105], [], none, none, 0⟩).start_time ≠ none := by decide

/-- C5 amended: a backspace, a Ctrl+C interrupt or any other
non-printable key other than Ctrl+X never sets `start_time`; the Ctrl+X
end-round shortcut and the first accepted printable character both set it
to the current time when it is unset; and once set it is never changed by
any key. -/
theorem c5_start_time_amended : ∀ (now : ℚ) (ch : Nat) (g : GameState),
    (g.start_time = none → ¬(32 ≤ ch ∧ ch ≤ 126) → ch ≠ 24 →
      (handle_key now ch g).start_time = none) ∧
    (g.start_time = none → (ch = 24 ∨ (32 ≤ ch ∧ ch ≤ 126)) →
      (handle_key now ch g).start_time = some now) ∧
    (g.start_time ≠ none → (handle_key now ch g).start_time = g.start_time) := by
  intro now ch g
  refine ⟨?_, ?_, ?_⟩
  · intro hnone hnp h24
    unfold handle_key feed_char
    split_ifs <;> simp_all
  · intro hnone hset
    unfold handle_key feed_char
    split_ifs <;> first | (exfalso; omega) | simp_all
  · intro hsome
    unfold handle_key feed_char
    split_ifs <;> simp_all

/-- C5 witness: a backspace leaves the clock unset, Ctrl+X at time 7
starts it at 7, and a printable key with the clock already at 3 leaves it
at 3. -/
theorem c5_start_time_amended_witness :
    (handle_key 7 8 ⟨[104], [], none, none, 0⟩).start_time = none ∧
    (handle_key 7 24 ⟨[104], [], none, none, 0⟩).start_time = some 7 ∧
    (handle_key 7 97 ⟨[104], [], some 3, none, 0⟩).start_time = some 3 :=
  ⟨(c5_start_time_amended 7 8 _).1 rfl (by decide) (by decide),
   (c5_start_time_amended 7 24 _).2.1 rfl (Or.inl rfl),
   (c5_start_time_amended 7 97 _).2.2 (by decide)⟩

/-- C4 counterexample: a session with `start_time` set to exactly 0 (so
the timestamp is set, the typed buffer is non-empty, and the elapsed time
is 60, not 0) returns `0` instead of the formula value `1/5`, because the
guard `not self.start_time` uses Python truthiness and treats the float
`0.0` as unset. -/
theorem c4_cex :
    calculate_wpm 60 { quote := [97], typed := [97], start_time := some 0,
                       end_time := none, errors := 0 } = 0 ∧
    pyRound 1 (((1 : ℚ) / 5) / ((60 - 0) / 60)) = 1 / 5 ∧ (0 : ℚ) ≠ 1 / 5 :=
  ⟨by norm_num [calculate_wpm, py_falsy],
   by norm_num [pyRound, roundHalfEven, round_eq],
   by norm_num⟩

/-- C4 amended: `calculate_wpm` returns 0 whenever `start_time` is unset
or holds exactly 0 (Python truthiness) or the typed buffer is empty, and
whenever the elapsed time is exactly 0; otherwise it returns
`(typedLength / 5) / elapsedMinutes` rounded to one decimal place. -/
theorem c4_calculate_wpm_amended : ∀ (now : ℚ) (g : GameState),
    ((py_falsy g.start_time = true ∨ g.typed.length = 0) → calculate_wpm now g = 0) ∧
    (∀ st, g.start_time = some st → st ≠ 0 → g.typed.length ≠ 0 → now - st = 0 →
      calculate_wpm now g = 0) ∧
    (∀ st, g.start_time = some st → st ≠ 0 → g.typed.length ≠ 0 → now - st ≠ 0 →
      calculate_wpm now g =
        pyRound 1 (((g.typed.length : ℚ) / 5) / ((now - st) / 60))) := by
  intro now g
  refine ⟨?_, ?_, ?_⟩
  · intro h
    unfold calculate_wpm
    rw [if_pos]
    rcases h with h | h
    · exact Or.inl h
    · exact Or.inr h
  · intro st hst hst0 hlen helapsed
    unfold calculate_wpm
    have hguard : ¬(py_falsy g.start_time = true ∨ g.typed.length = 0) := by
      simp [hst, py_falsy, hst0, hlen]
    rw [if_neg hguard, hst]
    simp only [Option.getD_some]
    rw [if_pos helapsed]
  · intro st hst hst0 hlen helapsed
    unfold calculate_wpm
    have hguard : ¬(py_falsy g.start_time = true ∨ g.typed.length = 0) := by
      simp [hst, py_falsy, hst0, hlen]
    rw [if_neg hguard, hst]
    simp only [Option.getD_some]
    rw [if_neg helapsed]

/-- C4 witness: an unset clock gives 0; elapsed 0 gives 0; three
characters typed over one minute give 0.6 wpm by the formula. -/
theorem c4_calculate_wpm_amended_witness :
    calculate_wpm 60 ⟨[97], [], none, none, 0⟩ = 0 ∧
    calculate_wpm 5 ⟨[97], [97], some 5, none, 0⟩ = 0 ∧
    calculate_wpm 90 ⟨[97, 98], [97, 98, 99], some 30, none, 1⟩ = 3 / 5 := by
  refine ⟨?_, ?_, ?_⟩
  · exact (c4_calculate_wpm_amended 60 _).1 (Or.inl (by decide))
  · exact (c4_calculate_wpm_amended 5 _).2.1 5 rfl (by norm_num) (by decide) (by norm_num)
  · have h := (c4_calculate_wpm_amended 90 ⟨[97, 98], [97, 98, 99], some 30, none, 1⟩).2.2
      30 rfl (by norm_num) (by decide) (by norm_num)
    rw [h]
    norm_num [pyRound, roundHalfEven, round_eq]

/-- C6 counterexample: a round ending at time 90 (clock started at 30,
50 characters typed) whose final wpm is computed with a fresh wall-clock
read at time 150 yields 5.0, not the 10.0 that the two stored timestamps
would give — so the final WPM is not derived from the stored timestamps. -/
theorem c6_cex :
    (end_of_round 90 150 { quote := List.replicate 50 97,
                           typed := List.replicate 50 97, start_time := some 30,
                           end_time := none, errors := 0 }).2.1 ≠
      pyRound 1 (((50 : ℚ) / 5) / (((90 : ℚ) - 30) / 60)) := by
  norm_num [end_of_round, calculate_wpm, py_falsy, pyRound, roundHalfEven, round_eq]

/-- C6 amended: at end of round, when `start_time` is unset both the
final wpm and the elapsed time are 0; when it is set, the elapsed
duration is `end − start` computed from the two stored timestamps, but
the final wpm is `calculate_wpm` evaluated at a fresh wall-clock read —
and `calculate_wpm` ignores the stored `end_time` entirely. -/
theorem c6_elapsed_amended : ∀ (t_end t_now : ℚ) (g : GameState),
    (g.start_time = none → end_of_round t_end t_now g =
      ({ g with end_time := some t_end }, 0, 0)) ∧
    (∀ st, g.start_time = some st →
      (end_of_round t_end t_now g).2.2 = t_end - st ∧
      (end_of_round t_end t_now g).2.1 =
        calculate_wpm t_now { g with end_time := some t_end }) ∧
    calculate_wpm t_now { g with end_time := some t_end } = calculate_wpm t_now g := by
  intro t_end t_now g
  refine ⟨?_, ?_, rfl⟩
  · intro h
    unfold end_of_round
    have : ({ g with end_time := some t_end } : GameState).start_time = none := h
    rw [this]
  · intro st hst
    unfold end_of_round
    have : ({ g with end_time := some t_end } : GameState).start_time = some st := hst
    rw [this]
    exact ⟨rfl, rfl⟩

/-- C6 witness: with the clock unset the round ends with 0 wpm and 0
elapsed; with the clock at 30 and the round ending at 90, the stored
elapsed time is 60 while the final wpm equals `calculate_wpm` at the
fresh read 150. -/
theorem c6_elapsed_amended_witness :
    end_of_round 9 9 ⟨[97], [], none, none, 0⟩ = (⟨[97], [], none, some 9, 0⟩, 0, 0) ∧
    (end_of_round 90 150 ⟨[97], [97], some 30, none, 2⟩).2.2 = 60 ∧
    (end_of_round 90 150 ⟨[97], [97], some 30, none, 2⟩).2.1 =
      calculate_wpm 150 ⟨[97], [97], some 30, some 90, 2⟩ := by
  refine ⟨(c6_elapsed_amended 9 9 _).1 rfl, ?_, ?_⟩
  · have h := ((c6_elapsed_amended 90 150 ⟨[97], [97], some 30, none, 2⟩).2.1 30 rfl).1
    rw [h]
    norm_num
  · exact ((c6_elapsed_amended 90 150 ⟨[97], [97], some 30, none, 2⟩).2.1 30 rfl).2

/-! ## Stats-store lemmas -/

/-- The row written by one `save_stats` call with parameters
(errors, wpm, elapsed, tier). -/
def row_of (a : Nat × ℚ × ℚ × String) : CsvRow :=
  { wpm_field := some a.2.1, accuracy := 100, errors := a.1,
    duration := pyRound 2 a.2.2.1, tier := a.2.2.2 }

/-- A sequence of `save_stats` calls, applied in order to a log. -/
def append_rounds (appends : List (Nat × ℚ × ℚ × String)) (log : List CsvRow) :
    List CsvRow :=
  appends.foldl (fun acc a => save_stats a.1 a.2.1 a.2.2.1 a.2.2.2 acc) log

/-- Appending a sequence of records concatenates their rows in order. -/
lemma append_rounds_eq (appends : List (Nat × ℚ × ℚ × String)) (log : List CsvRow) :
    append_rounds appends log = log ++ appends.map row_of := by
  induction appends generalizing log with
  | nil => simp [append_rounds]
  | cons a t ih =>
    show append_rounds t (save_stats a.1 a.2.1 a.2.2.1 a.2.2.2 log) = _
    rw [ih, save_stats]
    simp [row_of, List.append_assoc]

/-- Rows written by `save_stats` all parse back: the comprehension
succeeds and returns the written wpm values. -/
lemma parse_wpms_map_row_of (l : List (Nat × ℚ × ℚ × String)) :
    parse_wpms (l.map row_of) = some (l.map fun a => a.2.1) := by
  induction l with
  | nil => rfl
  | cons a t ih => simp [parse_wpms, row_of, ih]

/-- A single unparsable wpm field makes the whole comprehension raise. -/
lemma parse_wpms_none_of_mem (rows : List CsvRow) (r : CsvRow) (hr : r ∈ rows)
    (h : r.wpm_field = none) : parse_wpms rows = none := by
  induction rows with
  | nil => cases hr
  | cons x t ih =>
    rcases List.mem_cons.mp hr with rfl | hr'
    · cases hparse : parse_wpms t <;> simp [parse_wpms, h, hparse]
    · cases hw : x.wpm_field <;> simp [parse_wpms, hw, ih hr']

/-- The last-five window `wpms[-5:] if len > 5 else wpms` is the last
`min 5 len` elements. -/
lemma recent_window_eq (l : List ℚ) :
    (if l.length > 5 then l.drop (l.length - 5) else l) =
      l.drop (l.length - min 5 l.length) := by
  split_ifs with h
  · have hm : min 5 l.length = 5 := Nat.min_eq_left (by omega)
    rw [hm]
  · have hm : min 5 l.length = l.length := Nat.min_eq_right (by omega)
    rw [hm]
    simp

/-- C7 counterexample: appending the single record with wpm 3.14 and then
reading the stats gives `best_wpm = 3.1` (the code rounds the maximum to
one decimal place), not the appended maximum 3.14 the claim requires. -/
theorem c7_cex :
    (get_historical_stats (some (save_stats 0 (157 / 50) 0 "disaster" []))).map
      HistoricalStats.best_wpm ≠ some ((157 : ℚ) / 50) := by
  norm_num [get_historical_stats, save_stats, parse_wpms, listMax, pyRound,
    roundHalfEven, round_eq]

/-- C7 amended: appending N (at least 1) records and reading the stats
yields `total_rounds = N`, `best_wpm` equal to the maximum of the
appended wpm values rounded to one decimal place, and `recent_avg_wpm`
equal to the average of the last `min 5 N` appended wpm values in
insertion order rounded to one decimal place; the empty log yields the
no-data result `none`. -/
theorem c7_round_trip_amended : ∀ appends : List (Nat × ℚ × ℚ × String),
    appends ≠ [] →
    ((get_historical_stats (some (append_rounds appends []))).map
        HistoricalStats.total_rounds = some appends.length ∧
      (get_historical_stats (some (append_rounds appends []))).map
        HistoricalStats.best_wpm =
          some (pyRound 1 (listMax (appends.map fun a => a.2.1))) ∧
      (get_historical_stats (some (append_rounds appends []))).map
        HistoricalStats.recent_avg_wpm =
          some (pyRound 1
            (((appends.map fun a => a.2.1).drop
                (appends.length - min 5 appends.length)).sum /
              ((min 5 appends.length : Nat) : ℚ)))) ∧
    get_historical_stats (some ([] : List CsvRow)) = none := by
  intro appends hne
  refine ⟨?_, rfl⟩
  have hrows : append_rounds appends [] = appends.map row_of := by
    rw [append_rounds_eq]
    rfl
  have hlen : (appends.map row_of).length = appends.length := List.length_map _ _
  have hwlen : (appends.map fun a => a.2.1).length = appends.length :=
    List.length_map _ _
  have hlen0 : ¬((appends.map row_of).length = 0) := by
    rw [hlen]
    simpa using hne
  unfold get_historical_stats
  rw [hrows]
  dsimp only
  rw [if_neg hlen0, parse_wpms_map_row_of]
  refine ⟨by simp [hlen], by simp, ?_⟩
  simp only [Option.map_some]
  have hdropped : appends.length - (appends.length - min 5 appends.length) =
      min 5 appends.length := by
    rcases Nat.le_total 5 appends.length with h | h
    · rw [Nat.min_eq_left h]
      omega
    · rw [Nat.min_eq_right h]
      omega
  rw [recent_window_eq, List.length_drop, hwlen, hdropped]
  simp

/-- C7 witness: one appended record with wpm 3.14 gives one round and a
best wpm of 3.1. -/
theorem c7_round_trip_amended_witness :
    (get_historical_stats (some (append_rounds [(0, 157 / 50, 0, "disaster")] []))).map
        HistoricalStats.total_rounds = some 1 ∧
    (get_historical_stats (some (append_rounds [(0, 157 / 50, 0, "disaster")] []))).map
        HistoricalStats.best_wpm = some (31 / 10) := by
  have h := c7_round_trip_amended [(0, 157 / 50, 0, "disaster")] (List.cons_ne_nil _ _)
  refine ⟨h.1.1, ?_⟩
  rw [h.1.2.1]
  norm_num [listMax, pyRound, roundHalfEven, round_eq]

/-- C10: reading historical stats never raises — a missing stats file, a
file with zero data rows, and a file with a row whose wpm field does not
parse as a number all yield the no-data result `none`. -/
theorem c10_robustness :
    get_historical_stats none = none ∧
    (∀ rows : List CsvRow, rows.length = 0 → get_historical_stats (some rows) = none) ∧
    (∀ rows : List CsvRow, (∃ r ∈ rows, r.wpm_field = none) →
      get_historical_stats (some rows) = none) := by
  refine ⟨rfl, ?_, ?_⟩
  · intro rows h
    unfold get_historical_stats
    dsimp only
    rw [if_pos h]
  · intro rows hex
    obtain ⟨r, hr, hnone⟩ := hex
    unfold get_historical_stats
    dsimp only
    by_cases h0 : rows.length = 0
    · rw [if_pos h0]
    · rw [if_neg h0, parse_wpms_none_of_mem rows r hr hnone]

/-- C10 witness: the missing file, the header-only file, and a file with
one malformed wpm field all give `none`. -/
theorem c10_robustness_witness :
    get_historical_stats none = none ∧
    get_historical_stats (some []) = none ∧
    get_historical_stats (some [{ wpm_field := none, accuracy := 100, errors := 0,
                                  duration := 0, tier := "disaster" }]) = none :=
  ⟨c10_robustness.1, c10_robustness.2.1 [] rfl,
   c10_robustness.2.2 _ ⟨_, List.mem_singleton.mpr rfl, rfl⟩⟩

end Typer
